import Mathlib

/-!
Shallow embedding of `kevlar/call.py`: variant calling from pairwise
alignments.  Python sequences are modelled as `List Char`, Python ints as
`Int`/`Nat`, Python exceptions (assertion failures, `IndexError`,
`ZeroDivisionError`) as `none` in an `Option` result.  External
collaborators (the Smith-Waterman aligner, reverse complement, `bwa`)
are abstracted as function parameters, mirroring the module's imports.
-/

/-- Resolve one endpoint of a Python slice `s[a:b]` for a sequence of
length `n`: negative indices count from the end, and both ends are
clamped into `[0, n]`. -/
def pyindex (n : Nat) (i : Int) : Nat :=
  if i < 0 then (i + n).toNat else min i.toNat n

/-- Python slice `s[a:b]` (step 1) with Python's clamping semantics. -/
def pyslice (s : List Char) (a b : Int) : List Char :=
  (s.take (pyindex s.length b)).drop (pyindex s.length a)

/-- Value of a decimal digit string, as computed by Python `int(...)`. -/
def digitsToNat (l : List Char) : Nat :=
  l.foldl (fun a c => a * 10 + (c.toNat - 48)) 0

/-!
`local_to_global` uses `re.search('(\S+)_(\d+)-(\d+)', subseqid)`.
We implement that exact search: try each start position left to right;
at a position, the greedy `\S+` backtracks from the longest non-space
run, so the rightmost underscore (inside the run) whose suffix matches
`\d+-\d+` wins.  The inner backtracking of `(\d+)-` is vacuous because
`-` is not a digit, so the maximal digit run is the only candidate.
-/

/-- Match `(\d+)-(\d+)` at the start of `l` (the part of the pattern
after the underscore); returns the two numeric groups. -/
def matchNum2 (l : List Char) : Option (Nat × Nat) :=
  let d1 := l.takeWhile Char.isDigit
  if d1.isEmpty then none
  else
    match l.drop d1.length with
    | '-' :: rest2 =>
        let d2 := rest2.takeWhile Char.isDigit
        if d2.isEmpty then none else some (digitsToNat d1, digitsToNat d2)
    | _ => none

/-- Try underscore positions `j, j-1, ..., 1` (the greedy backtracking
order of `\S+_`): at the first position holding `'_'` whose suffix
matches `(\d+)-(\d+)`, return (group 1, group 2, group 3). -/
def tryJ (l : List Char) : Nat → Option (List Char × Nat × Nat)
  | 0 => none
  | j + 1 =>
      match l[j + 1]? with
      | some '_' =>
          match matchNum2 (l.drop (j + 2)) with
          | some ab => some (l.take (j + 1), ab.1, ab.2)
          | none => tryJ l j
      | _ => tryJ l j

/-- Attempt the regex match with group 1 starting at the head of `l`. -/
def matchFrom (l : List Char) : Option (List Char × Nat × Nat) :=
  tryJ l ((l.takeWhile (fun c => !c.isWhitespace)).length - 1)

/-- `re.search`: scan start positions left to right. -/
def searchLTG : List Char → Option (List Char × Nat × Nat)
  | [] => none
  | c :: rest =>
      match matchFrom (c :: rest) with
      | some r => some r
      | none => searchLTG rest

/-- Parse a subsequence id against `(\S+)_(\d+)-(\d+)`, giving the
sequence id and the global start offset. -/
def nameParse (s : String) : Option (String × Nat) :=
  (searchLTG s.data).map (fun r => (String.mk r.1, r.2.1))

/-- `local_to_global(localcoord, subseqid)`: `none` models the fatal
`assert match` failure on an id that violates the naming convention. -/
def local_to_global (localcoord : Int) (subseqid : String) :
    Option (String × Int) :=
  (nameParse subseqid).map (fun sg => (sg.1, (sg.2 : Int) + localcoord))

/-- A khmer/screed sequence record: a name, a sequence, and (for query
contigs) the associated interesting k-mers. -/
structure SeqRecord where
  name : String
  sequence : List Char
  ikmers : List String
deriving DecidableEq

/-- Which Python class the record was built with (`Variant`,
`VariantSNV`, `VariantIndel`); the classes add no fields. -/
inductive VarKind where
  | plain
  | snv
  | indel
deriving DecidableEq

/-- The `Variant` object: seqid, 0-based position, alleles (both `"."`
for a no-call) and the `info` attribute map (keys unique). -/
structure Variant where
  kind : VarKind
  seqid : String
  pos : Int
  refr : String
  alt : String
  info : List (String × String)
deriving DecidableEq

/-- `value.replace(';', ':')` from `Variant.attribute`. -/
def replSemi (s : String) : String :=
  String.mk (s.data.map (fun c => if c = ';' then ':' else c))

/-- Python string comparison, as used by `sorted`: lexicographic by
code point (a proper prefix sorts first). -/
def charLeB : List Char → List Char → Bool
  | [], _ => true
  | _ :: _, [] => false
  | a :: as, b :: bs =>
      if a.toNat < b.toNat then true
      else if b.toNat < a.toNat then false
      else charLeB as bs

def strLeB (a b : String) : Bool := charLeB a.data b.data

/-- `Variant.attribute(key, pair)`: look the key up, rewrite `;` to `:`
in the value, and optionally render as `KEY=VALUE`. -/
def infoAttribute (info : List (String × String)) (key : String)
    (pair : Bool) : Option String :=
  match info.lookup key with
  | none => none
  | some value =>
      let v2 := replSemi value
      if pair then some (key ++ "=" ++ v2) else some v2

def Variant.attrib (v : Variant) (key : String) (pair : Bool) : Option String :=
  infoAttribute v.info key pair

/-- The INFO column of `Variant.vcf`: `.` when the map is empty,
otherwise the `KEY=VALUE` pairs for all keys in sorted order except
`QS`, which is appended last when present, joined by `;`. -/
def vcfAttrStr (info : List (String × String)) : String :=
  if 0 < info.length then
    let kvpairs := ((info.map Prod.fst).insertionSort
        (fun a b => strLeB a b = true)).filterMap
      (fun key => if key ≠ "QS" then infoAttribute info key true else none)
    let kvpairs2 :=
      match infoAttribute info "QS" true with
      | some queryseq => kvpairs ++ [queryseq]
      | none => kvpairs
    String.intercalate ";" kvpairs2
  else "."

/-- `Variant.vcf`: the tab-separated VCF line, position printed
1-based, filter `PASS` for genuine calls. -/
def Variant.vcf (v : Variant) : String :=
  v.seqid ++ "\t" ++ toString (v.pos + 1) ++ "\t.\t" ++ v.refr ++ "\t" ++
    v.alt ++ "\t.\t" ++ (if v.refr ≠ "." then "PASS" else ".") ++ "\t" ++
    vcfAttrStr v.info

/-- INFO column as the specification describes it: semicolon-joined
`KEY=VALUE` pairs, keys alphabetical except `QS` always last, `;` in
values rewritten to `:`, `.` when the map is empty. -/
def vcfInfoSpec (info : List (String × String)) : String :=
  if info.length = 0 then "."
  else
    let keys := info.map Prod.fst
    let ordered :=
      ((keys.filter (fun k => decide (k ≠ "QS"))).insertionSort
        (fun a b => strLeB a b = true)) ++
        (if "QS" ∈ keys then ["QS"] else [])
    String.intercalate ";" (ordered.filterMap (fun k =>
      (info.lookup k).map (fun val => k ++ "=" ++ replSemi val)))

/-- The whole VCF line as the specification describes it. -/
def Variant.vcfSpec (v : Variant) : String :=
  v.seqid ++ "\t" ++ toString (v.pos + 1) ++ "\t.\t" ++ v.refr ++ "\t" ++
    v.alt ++ "\t.\t" ++ (if v.refr ≠ "." then "PASS" else ".") ++ "\t" ++
    vcfInfoSpec v.info

/-- Python dict assignment `info[k] = v`: overwrite the existing entry
or append a new one. -/
def setInfo (info : List (String × String)) (k v : String) :
    List (String × String) :=
  if (info.lookup k).isSome then
    info.map (fun p => if p.1 = k then (k, v) else p)
  else info ++ [(k, v)]

/-- The positional comparison in `call_snv`: Python evaluates
`t[i] != q[i]` for every `i < length`, raising `IndexError` (`none`)
when either window is shorter than `length`; otherwise it collects the
differing positions with both characters. -/
def diffList (t q : List Char) (length : Nat) :
    Option (List (Nat × Char × Char)) :=
  if length ≤ t.length ∧ length ≤ q.length then
    some ((List.range length).filterMap (fun i =>
      match t[i]?, q[i]? with
      | some a, some b => if a ≠ b then some (i, a, b) else none
      | _, _ => none))
  else none

/-- The target-side comparison window of `call_snv`: the first
`length` bases when the offset is negative (target short), else the
offset-shifted window. -/
def snvTargetWindow (target : SeqRecord) (offset : Int) (length : Nat) :
    List Char :=
  if offset < 0 then pyslice target.sequence 0 length
  else pyslice target.sequence offset (offset + length)

/-- The query-side comparison window of `call_snv` (the mirror image
of `snvTargetWindow`). -/
def snvQueryWindow (query : SeqRecord) (offset : Int) (length : Nat) :
    List Char :=
  if offset < 0 then pyslice query.sequence (-offset) (-offset + length)
  else pyslice query.sequence 0 length

/-- `call_snv(target, query, offset, length, ksize)`. -/
def call_snv (target query : SeqRecord) (offset : Int) (length ksize : Nat) :
    Option (List Variant) :=
  let targetshort := offset < 0
  let offs : Int := if offset < 0 then -offset else offset
  let gdnaoffset : Int := if offset < 0 then 0 else offset
  let t := snvTargetWindow target offset length
  let q := snvQueryWindow query offset length
  match diffList t q length with
  | none => none
  | some [] =>
      (local_to_global gdnaoffset target.name).map (fun sg =>
        [⟨VarKind.plain, sg.1, sg.2, ".", ".",
          [("NC", "perfectmatch"), ("QN", query.name), ("QS", String.mk q)]⟩])
  | some diffs =>
      diffs.mapM (fun d =>
        let minpos : Int := max ((d.1 : Int) - ksize + 1) 0
        let maxpos : Int := min ((d.1 : Int) + ksize) (length : Int)
        let window := pyslice q minpos maxpos
        let refrwindow := pyslice t minpos maxpos
        let localcoord : Int := if targetshort then d.1 else (d.1 : Int) + offs
        (local_to_global localcoord target.name).map (fun sg =>
          ⟨VarKind.snv, sg.1, sg.2, String.mk [d.2.1.toUpper],
            String.mk [d.2.2.toUpper],
            [("VW", String.mk window), ("RW", String.mk refrwindow),
             ("IK", toString query.ikmers.length)]⟩))

/-- `deletion_allele`: returns `(refr, alt, refrwindow, altwindow)`;
`none` models the `IndexError` of `refr[0]` on an empty slice. -/
def deletion_allele (target query : SeqRecord) (offset : Int)
    (ksize leftmatch indellength : Nat) :
    Option (List Char × List Char × List Char × List Char) :=
  let minpos : Int := (leftmatch : Int) - ksize + 1
  let maxpos : Int := (leftmatch : Int) + ksize - 1
  let altwindow := pyslice query.sequence minpos maxpos
  let refrwindow := pyslice target.sequence (minpos + offset)
    (maxpos + offset + indellength)
  let refr := pyslice target.sequence (offset + leftmatch - 1)
    (offset + leftmatch + indellength)
  match refr with
  | [] => none
  | c :: _ => some (refr, [c], refrwindow, altwindow)

/-- `insertion_allele`: the mirror construction; the query supplies the
long allele. -/
def insertion_allele (target query : SeqRecord) (offset : Int)
    (ksize leftmatch indellength : Nat) :
    Option (List Char × List Char × List Char × List Char) :=
  let minpos : Int := (leftmatch : Int) - ksize + 1
  let maxpos : Int := (leftmatch : Int) + ksize + indellength - 1
  let altwindow := pyslice query.sequence minpos maxpos
  let refrwindow := pyslice target.sequence (minpos + offset)
    (maxpos + offset - indellength)
  let alt := pyslice query.sequence ((leftmatch : Int) - 1)
    ((leftmatch : Int) + indellength)
  match alt with
  | [] => none
  | c :: _ => some ([c], alt, refrwindow, altwindow)

/-- `call_deletion`: negative offset swaps the roles of target and
query (and of the allele/window pairs).  The length assertion here is
commented out in the source, so no length check is performed. -/
def call_deletion (target query : SeqRecord) (offset : Int)
    (ksize leftmatch indellength : Nat) : Option (List Variant) :=
  let targetshort := offset < 0
  let alleles :=
    if offset < 0 then
      (insertion_allele query target (-offset) ksize leftmatch indellength).map
        (fun r => (r.2.1, r.1, r.2.2.2, r.2.2.1))
    else
      deletion_allele target query offset ksize leftmatch indellength
  match alleles with
  | none => none
  | some (refr, alt, refrwindow, altwindow) =>
      let localcoord : Int :=
        if targetshort then leftmatch else (leftmatch : Int) + offset
      (local_to_global localcoord target.name).map (fun sg =>
        [⟨VarKind.indel, sg.1, sg.2 - 1, String.mk refr, String.mk alt,
          [("VW", String.mk altwindow), ("RW", String.mk refrwindow),
           ("IK", toString query.ikmers.length)]⟩])

/-- `call_insertion`: as `call_deletion`, but `assert len(alt) ==
indellength + 1` is live; its failure is fatal (`none`). -/
def call_insertion (target query : SeqRecord) (offset : Int)
    (ksize leftmatch indellength : Nat) : Option (List Variant) :=
  let targetshort := offset < 0
  let alleles :=
    if offset < 0 then
      (deletion_allele query target (-offset) ksize leftmatch indellength).map
        (fun r => (r.2.1, r.1, r.2.2.2, r.2.2.1))
    else
      insertion_allele target query offset ksize leftmatch indellength
  match alleles with
  | none => none
  | some (refr, alt, refrwindow, altwindow) =>
      if alt.length = indellength + 1 then
        let localcoord : Int :=
          if targetshort then leftmatch else (leftmatch : Int) + offset
        (local_to_global localcoord target.name).map (fun sg =>
          [⟨VarKind.indel, sg.1, sg.2 - 1, String.mk refr, String.mk alt,
            [("VW", String.mk altwindow), ("RW", String.mk refrwindow),
             ("IK", toString query.ikmers.length)]⟩])
      else none

/-- Tokenize a CIGAR-like operation string into `(count, op)` runs;
`none` when the string is not an alternation of digit groups and
single operator characters (then no anchored pattern can match). -/
def parseCigarAux : Nat → List Char → Option (List (Nat × Char))
  | _, [] => some []
  | 0, _ :: _ => none
  | fuel + 1, c :: l =>
      if c.isDigit then
        let ds := (c :: l).takeWhile Char.isDigit
        match (c :: l).drop ds.length with
        | [] => none
        | op :: rest =>
            (parseCigarAux fuel rest).map (fun ts => (digitsToNat ds, op) :: ts)
      else none

def parseCigar (l : List Char) : Option (List (Nat × Char)) :=
  parseCigarAux l.length l

/-- `c ∈ {D, I}` — the character classes `[DI]` / `[ID]`. -/
def isDI (c : Char) : Bool := c = 'D' || c = 'I'

/-- Sign convention for the leading operation: a leading `I` negates
the offset (`offset *= -1`). -/
def sgnOff (c : Char) (n : Nat) : Int :=
  if c = 'I' then -(n : Int) else (n : Int)

/-- How `make_call` dispatches on the operation string. -/
inductive CigarCall where
  | snv (offset : Int) (length : Nat)
  | indel (indeltype : Char) (offset : Int) (leftmatch indellength : Nat)
  | inscrutable
deriving DecidableEq

/-- The four anchored patterns of `make_call`, in source order, with
the `<= 5` bound on the trailing match runs; parameters extracted from
the capture groups. -/
def interpretCigar : Option (List (Nat × Char)) → CigarCall
  | some [(n1, x), (n2, m), (_, y)] =>
      if isDI x && m == 'M' && isDI y then .snv (sgnOff x n1) n2
      else .inscrutable
  | some [(n1, x), (n2, m1), (_, y), (n4, m2)] =>
      if (isDI x && m1 == 'M' && isDI y && m2 == 'M') && decide (n4 ≤ 5) then
        .snv (sgnOff x n1) n2
      else .inscrutable
  | some [(n1, x), (n2, m1), (n3, z), (_, m2), (_, y)] =>
      if isDI x && m1 == 'M' && isDI z && m2 == 'M' && isDI y then
        .indel z (sgnOff x n1) n2 n3
      else .inscrutable
  | some [(n1, x), (n2, m1), (n3, z), (_, m2), (_, y), (n6, m3)] =>
      if (isDI x && m1 == 'M' && isDI z && m2 == 'M' && isDI y && m3 == 'M') &&
          decide (n6 ≤ 5) then
        .indel z (sgnOff x n1) n2 n3
      else .inscrutable
  | _ => .inscrutable

/-- The four patterns of `alignment_interpretable` (no `<= 5` bound
there). -/
def shapeOk : Option (List (Nat × Char)) → Bool
  | some [(_, x), (_, m), (_, y)] => isDI x && m == 'M' && isDI y
  | some [(_, x), (_, m1), (_, y), (_, m2)] =>
      isDI x && m1 == 'M' && isDI y && m2 == 'M'
  | some [(_, x), (_, m1), (_, z), (_, m2), (_, y)] =>
      isDI x && m1 == 'M' && isDI z && m2 == 'M' && isDI y
  | some [(_, x), (_, m1), (_, z), (_, m2), (_, y), (_, m3)] =>
      isDI x && m1 == 'M' && isDI z && m2 == 'M' && isDI y && m3 == 'M'
  | _ => false

def alignment_interpretable (cigar : String) : Bool :=
  shapeOk (parseCigar cigar.data)

/-- `make_call(target, query, cigar, ksize)`. -/
def make_call (target query : SeqRecord) (cigar : String) (ksize : Nat) :
    Option (List Variant) :=
  match interpretCigar (parseCigar cigar.data) with
  | .snv offset length => call_snv target query offset length ksize
  | .indel indeltype offset leftmatch indellength =>
      if indeltype = 'D' then
        call_deletion target query offset ksize leftmatch indellength
      else call_insertion target query offset ksize leftmatch indellength
  | .inscrutable =>
      (local_to_global 0 target.name).map (fun sg =>
        [⟨VarKind.plain, sg.1, sg.2, ".", ".",
          [("NC", "inscrutablecigar"), ("QN", query.name),
           ("QS", String.mk query.sequence), ("CG", cigar)]⟩])

/-- `mate_distance(mate_positions, gdna_position)`: mean absolute
distance to same-chromosome mate placements.  Python divides with `/`;
we model the quotient exactly as a rational.  `none` models the
`ZeroDivisionError` when no mate hit the candidate's sequence. -/
def mate_distance (mate_positions : List (String × Int))
    (gdna_position : String × Int) : Option ℚ :=
  let distances := mate_positions.filterMap (fun sp =>
    if sp.1 = gdna_position.1 then some |sp.2 - gdna_position.2| else none)
  if distances.length = 0 then none
  else some (((distances.sum : Int) : ℚ) / (distances.length : ℚ))

/-- The external collaborators consumed by the orchestrator:
`kevlar.align` (with its four scoring parameters), `kevlar.revcom`,
and mate placement via `bwa` (`align_mates`, keyed by the mate-reads
and reference file names). -/
structure ExternalFns where
  alignfn : List Char → List Char → Int → Int → Int → Int → String × Int
  revcom : List Char → List Char
  bwaAlign : String → String → List (String × Int)

/-- `align_both_strands`: align the query both forward and
reverse-complemented, keep the higher score (ties prefer forward);
returns (cigar, score, strand). -/
def align_both_strands (E : ExternalFns) (targetseq queryseq : List Char)
    (matchscore mismatch gapopen gapextend : Int) : String × Int × Int :=
  let r1 := E.alignfn targetseq queryseq matchscore mismatch gapopen gapextend
  let r2 := E.alignfn targetseq (E.revcom queryseq) matchscore mismatch
    gapopen gapextend
  if r2.2 > r1.2 then (r2.1, r2.2, -1) else (r1.1, r1.2, 1)

/-- One candidate alignment of the current query: target record,
operation string, score, orientation. -/
structure AlignCand where
  target : SeqRecord
  cigar : String
  score : Int
  strand : Int
deriving DecidableEq

/-- Python truthiness of an optional filename (`if matefile and ...`):
absent or empty strings are falsy. -/
def strTruthy : Option String → Bool
  | none => false
  | some s => s != ""

/-- The candidate-narrowing step of `call`: single candidate reported
as is; otherwise restrict to interpretable alignments when any exist,
and keep every candidate tied at the top score.  `none` models the
`IndexError` of `finallist[0]` on an empty alignment list. -/
def selectAligns (alignments : List AlignCand) : Option (List AlignCand) :=
  if alignments.length = 1 then some alignments
  else
    let scrtbl := alignments.filter (fun a => alignment_interpretable a.cigar)
    let finallist := if scrtbl.isEmpty then alignments else scrtbl
    match finallist with
    | [] => none
    | f :: _ => some (finallist.filter (fun a => a.score == f.score))

/-- The mate-distance tie-break: `list.sort(key=...)` precomputes every
key (any key failure aborts), then sorts stably ascending by key. -/
def mateSort (aligns : List AlignCand) (mp : List (String × Int)) :
    Option (List AlignCand) :=
  match aligns.mapM (fun a =>
      (local_to_global 0 a.target.name).bind (fun g => mate_distance mp g)) with
  | none => none
  | some keys =>
      some (((aligns.zip keys).insertionSort (fun p q => p.2 ≤ q.2)).map
        Prod.fst)

/-- The reporting loop at the bottom of `call`: walk the candidates to
report, reverse-complementing the query sequence for `-1`-strand
candidates (and flipping it back afterwards), yield every record from
`make_call`, and force `info['NC'] = 'matefail'` on records of
non-first candidates whenever the cached mate-position list is truthy
(nonempty).  Returns the yielded records and the final query
sequence. -/
def reportLoop (E : ExternalFns) (ksize : Nat) (matePosT : Bool)
    (qname : String) (ikmers : List String) :
    List AlignCand → List Char → Bool → Option (List Variant × List Char)
  | [], qseq, _ => some ([], qseq)
  | a :: rest, qseq, best =>
      let qseq1 := if a.strand = -1 then E.revcom qseq else qseq
      match make_call a.target ⟨qname, qseq1, ikmers⟩ a.cigar ksize with
      | none => none
      | some vs =>
          let vs2 := vs.map (fun v =>
            if matePosT && !best then
              { v with info := setInfo v.info "NC" "matefail" }
            else v)
          let qseq2 := if a.strand = -1 then E.revcom qseq1 else qseq1
          match reportLoop E ksize matePosT qname ikmers rest qseq2 false with
          | none => none
          | some r => some (vs2 ++ r.1, r.2)

/-- The per-query body of `call`, threading the lazily-computed
mate-position cache across queries. -/
def callAux (E : ExternalFns) (targetlist : List SeqRecord)
    (matchscore mismatch gapopen gapextend : Int) (ksize : Nat)
    (matefile refrfile : Option String) :
    List SeqRecord → Option (List (String × Int)) → Option (List Variant)
  | [], _ => some []
  | query :: rest, matePos =>
      let targets := targetlist.insertionSort
        (fun a b => strLeB a.name b.name = true)
      let alignments := targets.map (fun t =>
        let r := align_both_strands E t.sequence query.sequence matchscore
          mismatch gapopen gapextend
        AlignCand.mk t r.1 r.2.1 r.2.2)
      let alignments2 := alignments.insertionSort (fun a b => b.score ≤ a.score)
      match selectAligns alignments2 with
      | none => none
      | some aligns2report =>
          let needMates := decide (1 < aligns2report.length) &&
            strTruthy matefile && strTruthy refrfile
          let matePos2 :=
            if needMates then
              some (match matePos with
                | none => E.bwaAlign (matefile.getD "") (refrfile.getD "")
                | some l => l)
            else matePos
          let sorted2 :=
            if needMates then mateSort aligns2report (matePos2.getD [])
            else some aligns2report
          match sorted2 with
          | none => none
          | some aligns3 =>
              let matePosT := match matePos2 with
                | some l => !l.isEmpty
                | none => false
              match reportLoop E ksize matePosT query.name query.ikmers
                  aligns3 query.sequence true with
              | none => none
              | some r =>
                  match callAux E targetlist matchscore mismatch gapopen
                      gapextend ksize matefile refrfile rest matePos2 with
                  | none => none
                  | some vs2 => some (r.1 ++ vs2)

/-- The `call` generator: queries processed longest-first, targets in
name order; the yielded records in order.  `none` models any uncaught
exception during the run. -/
def call (E : ExternalFns) (targetlist querylist : List SeqRecord)
    (matchscore mismatch gapopen gapextend : Int) (ksize : Nat)
    (matefile refrfile : Option String) : Option (List Variant) :=
  callAux E targetlist matchscore mismatch gapopen gapextend ksize matefile
    refrfile
    (querylist.insertionSort (fun a b => b.sequence.length ≤ a.sequence.length))
    none

/-- A stub collaborator set for concrete runs: constant alignment
result, identity reverse complement, no mate placements. -/
def wE : ExternalFns :=
  ⟨fun _ _ _ _ _ _ => ("3D4M3D", 10), fun s => s, fun _ _ => []⟩

/-- Concrete records for concrete runs of `call` and its report loop. -/
def wT1 : SeqRecord := ⟨"chr1_100-200", "AAACATAAAA".data, []⟩

def wT2 : SeqRecord := ⟨"chr2_100-200", "AAACTTAAAA".data, []⟩

def wQ : SeqRecord := ⟨"contig1", "CGTA".data, ["k1"]⟩

/-! ### Helper lemmas -/

theorem filterMap_ite_eq_filter {α β : Type} (p : α → Prop) [DecidablePred p]
    (f : α → Option β) (l : List α) :
    l.filterMap (fun a => if p a then f a else none) =
      (l.filter (fun a => decide (p a))).filterMap f := by
  induction l with
  | nil => rfl
  | cons a t ih =>
      by_cases h : p a <;>
        simp [List.filterMap_cons, List.filter_cons, h, ih]

theorem char_eq_of_toNat_eq {a b : Char} (h : a.toNat = b.toNat) : a = b := by
  have hv : a.val = b.val := by
    unfold Char.toNat at h
    exact UInt32.ext h
  exact Char.ext hv

theorem charLeB_total : ∀ xs ys : List Char,
    charLeB xs ys = true ∨ charLeB ys xs = true
  | [], _ => Or.inl rfl
  | _ :: _, [] => Or.inr rfl
  | a :: as, b :: bs => by
      unfold charLeB
      by_cases h1 : a.toNat < b.toNat
      · left
        rw [if_pos h1]
      · by_cases h2 : b.toNat < a.toNat
        · right
          rw [if_pos h2]
        · rw [if_neg h1, if_neg h2, if_neg h2, if_neg h1]
          exact charLeB_total as bs

theorem charLeB_trans : ∀ xs ys zs : List Char, charLeB xs ys = true →
    charLeB ys zs = true → charLeB xs zs = true
  | [], _, _ => fun _ _ => rfl
  | _ :: _, [], _ => fun h _ => by simp [charLeB] at h
  | _ :: _, _ :: _, [] => fun _ h => by simp [charLeB] at h
  | a :: as, b :: bs, c :: cs => fun h1 h2 => by
      unfold charLeB at h1 h2 ⊢
      split at h1
      · next hab =>
          split at h2
          · next hbc => rw [if_pos (by omega)]
          · next hbc =>
              split at h2
              · exact absurd h2 (by simp)
              · next hcb => rw [if_pos (by omega)]
      · next hab =>
          split at h1
          · exact absurd h1 (by simp)
          · next hba =>
              split at h2
              · next hbc => rw [if_pos (by omega)]
              · next hbc =>
                  split at h2
                  · exact absurd h2 (by simp)
                  · next hcb =>
                      rw [if_neg (by omega), if_neg (by omega)]
                      exact charLeB_trans as bs cs h1 h2

theorem charLeB_antisymm : ∀ xs ys : List Char, charLeB xs ys = true →
    charLeB ys xs = true → xs = ys
  | [], [] => fun _ _ => rfl
  | [], _ :: _ => fun _ h => by simp [charLeB] at h
  | _ :: _, [] => fun h _ => by simp [charLeB] at h
  | a :: as, b :: bs => fun h1 h2 => by
      unfold charLeB at h1 h2
      split at h1
      · next hab =>
          rw [if_neg (by omega), if_pos hab] at h2
          exact absurd h2 (by simp)
      · next hab =>
          split at h1
          · exact absurd h1 (by simp)
          · next hba =>
              have heq : a = b := char_eq_of_toNat_eq (by omega)
              rw [if_neg hba, if_neg hab] at h2
              rw [heq, charLeB_antisymm as bs h1 h2]

theorem strLeB_total : ∀ a b : String, strLeB a b = true ∨ strLeB b a = true :=
  fun a b => charLeB_total a.data b.data

theorem strLeB_trans : ∀ a b c : String, strLeB a b = true →
    strLeB b c = true → strLeB a c = true :=
  fun a b c => charLeB_trans a.data b.data c.data

theorem strLeB_antisymm : ∀ a b : String, strLeB a b = true →
    strLeB b a = true → a = b := by
  intro a b h1 h2
  have hd : a.data = b.data := charLeB_antisymm a.data b.data h1 h2
  cases a
  cases b
  exact congrArg String.mk hd

theorem filter_insertionSort_comm (p : String → Bool) (l : List String) :
    ((l.insertionSort (fun a b => strLeB a b = true)).filter p) =
      (l.filter p).insertionSort (fun a b => strLeB a b = true) := by
  haveI : IsTotal String (fun a b => strLeB a b = true) := ⟨strLeB_total⟩
  haveI : IsTrans String (fun a b => strLeB a b = true) :=
    ⟨fun a b c => strLeB_trans a b c⟩
  haveI : IsAntisymm String (fun a b => strLeB a b = true) :=
    ⟨fun a b => strLeB_antisymm a b⟩
  apply List.eq_of_perm_of_sorted
    (r := fun a b : String => strLeB a b = true)
  · exact ((List.perm_insertionSort _ l).filter p).trans
      (List.perm_insertionSort _ (l.filter p)).symm
  · exact (List.sorted_insertionSort _ l).filter p
  · exact List.sorted_insertionSort _ _

theorem infoAttribute_true (info : List (String × String)) (k : String) :
    infoAttribute info k true =
      (info.lookup k).map (fun val => k ++ "=" ++ replSemi val) := by
  unfold infoAttribute
  cases info.lookup k <;> rfl

theorem vcfAttrStr_eq_spec (info : List (String × String)) :
    vcfAttrStr info = vcfInfoSpec info := by
  have hbody : ∀ l : List String,
      l.filterMap (fun k => infoAttribute info k true) =
        l.filterMap (fun k =>
          (info.lookup k).map (fun val => k ++ "=" ++ replSemi val)) := by
    intro l
    apply List.filterMap_congr
    intro a _
    exact infoAttribute_true info a
  unfold vcfAttrStr vcfInfoSpec
  by_cases h : info.length = 0
  · simp [h]
  · have h1 : 0 < info.length := Nat.pos_of_ne_zero h
    rw [if_pos h1, if_neg h]
    dsimp only
    rw [filterMap_ite_eq_filter (fun k => k ≠ "QS")
      (fun k => infoAttribute info k true), filter_insertionSort_comm,
      List.filterMap_append, hbody]
    by_cases hqs : "QS" ∈ info.map Prod.fst
    · have hsome : (info.lookup "QS").isSome := by
        rw [List.lookup_isSome_iff]
        obtain ⟨p, hp, hfst⟩ := List.mem_map.mp hqs
        exact ⟨p, hp, by simp [hfst]⟩
      obtain ⟨val, hval⟩ := Option.isSome_iff_exists.mp hsome
      rw [infoAttribute_true, hval, if_pos hqs]
      simp [List.filterMap_cons, hval]
    · have hnone : info.lookup "QS" = none := by
        cases hl : info.lookup "QS" with
        | none => rfl
        | some b =>
            exfalso
            apply hqs
            obtain ⟨l1, l2, hsplit, _⟩ := List.lookup_eq_some_iff.mp hl
            subst hsplit
            simp
      rw [infoAttribute_true, hnone, if_neg hqs]
      simp

/-- C3: for every `Variant` with 0-based position `p`, the VCF
serialization is the tab-separated line `seqid, p+1, '.', refr, alt,
'.', filter, info` with `filter = 'PASS'` exactly when `refr ≠ '.'`,
and the info column is `'.'` for an empty map and otherwise the
semicolon-joined `KEY=VALUE` pairs, keys alphabetical except `QS`
last, `';'` in values rewritten to `':'`. -/
theorem variant_vcf_eq_spec (v : Variant) : v.vcf = v.vcfSpec := by
  unfold Variant.vcf Variant.vcfSpec
  rw [vcfAttrStr_eq_spec]

theorem isDigit_not_ws {c : Char} (h : c.isDigit = true) : c.isWhitespace = false := by
  cases hw : c.isWhitespace
  · rfl
  · exfalso
    unfold Char.isWhitespace at hw
    simp only [Bool.or_eq_true, decide_eq_true_eq] at hw
    rcases hw with ((hc | hc) | hc) | hc <;> (subst hc; exact absurd h (by decide))

theorem isDigit_ne_underscore {c : Char} (h : c.isDigit = true) : c ≠ '_' := by
  intro hc
  subst hc
  exact absurd h (by decide)

theorem tryJ_step (l : List Char) (j : Nat) (h : l[j + 1]? ≠ some '_') :
    tryJ l (j + 1) = tryJ l j := by
  conv_lhs => unfold tryJ
  split
  · next heq => exact absurd heq h
  · rfl

theorem tryJ_skip (l : List Char) : ∀ (j p : Nat), p ≤ j →
    (∀ k, p < k → k ≤ j → l[k]? ≠ some '_') → tryJ l j = tryJ l p := by
  intro j
  induction j with
  | zero =>
      intro p hp _
      have hp0 : p = 0 := Nat.le_zero.mp hp
      rw [hp0]
  | succ j ih =>
      intro p hp h
      rcases Nat.eq_or_lt_of_le hp with heq | hlt
      · rw [heq]
      · have hj : p ≤ j := by omega
        rw [tryJ_step l j (h (j + 1) (by omega) (by omega))]
        exact ih p hj (fun k hk1 hk2 => h k hk1 (by omega))

theorem tryJ_hit (l : List Char) (p : Nat) (hp : 1 ≤ p)
    (hu : l[p]? = some '_') (a b : Nat)
    (hm : matchNum2 (l.drop (p + 1)) = some (a, b)) :
    tryJ l p = some (l.take p, a, b) := by
  obtain ⟨j, rfl⟩ : ∃ j, p = j + 1 := ⟨p - 1, by omega⟩
  conv_lhs => unfold tryJ
  rw [hu]
  have harith : j + 1 + 1 = j + 2 := rfl
  rw [harith] at hm
  rw [hm]
  rfl

theorem tryJ_none (l : List Char) (hl : '_' ∉ l) : ∀ j, tryJ l j = none := by
  intro j
  induction j with
  | zero => rfl
  | succ j ih =>
      have hne : l[j + 1]? ≠ some '_' := by
        intro h
        exact hl (List.getElem?_mem h)
      rw [tryJ_step l j hne, ih]

theorem takeWhile_all {p : Char → Bool} {l : List Char}
    (h : ∀ c ∈ l, p c = true) : l.takeWhile p = l := by
  induction l with
  | nil => rfl
  | cons c t ih =>
      rw [List.takeWhile_cons, if_pos (h c (List.mem_cons_self c t))]
      rw [ih (fun x hx => h x (List.mem_cons_of_mem c hx))]

theorem matchNum2_spec (d1 d2 : List Char) (h1 : d1 ≠ [])
    (hd1 : ∀ c ∈ d1, c.isDigit = true) (h2 : d2 ≠ [])
    (hd2 : ∀ c ∈ d2, c.isDigit = true) :
    matchNum2 (d1 ++ '-' :: d2) = some (digitsToNat d1, digitsToNat d2) := by
  unfold matchNum2
  have htw : (d1 ++ '-' :: d2).takeWhile Char.isDigit = d1 := by
    rw [List.takeWhile_append_of_pos hd1]
    simp [List.takeWhile_cons]
  rw [htw]
  rw [if_neg (by simpa [List.isEmpty_iff] using h1)]
  rw [List.drop_left]
  show (if (List.takeWhile Char.isDigit d2).isEmpty = true then none
    else some (digitsToNat d1, digitsToNat (List.takeWhile Char.isDigit d2))) =
    some (digitsToNat d1, digitsToNat d2)
  rw [takeWhile_all hd2, if_neg (by simpa [List.isEmpty_iff] using h2)]

theorem searchLTG_cons_eq (c : Char) (rest : List Char) :
    searchLTG (c :: rest) =
      match matchFrom (c :: rest) with
      | some r => some r
      | none => searchLTG rest := rfl

theorem searchLTG_none (l : List Char) (hl : '_' ∉ l) : searchLTG l = none := by
  induction l with
  | nil => rfl
  | cons c rest ih =>
      have hm : matchFrom (c :: rest) = none := tryJ_none _ hl _
      rw [searchLTG_cons_eq, hm]
      exact ih (fun h => hl (List.mem_cons_of_mem c h))

theorem searchLTG_wellformed (sid d1 d2 : List Char) (hsid : sid ≠ [])
    (hws : ∀ c ∈ sid, c.isWhitespace = false) (h1 : d1 ≠ [])
    (hd1 : ∀ c ∈ d1, c.isDigit = true) (h2 : d2 ≠ [])
    (hd2 : ∀ c ∈ d2, c.isDigit = true) :
    searchLTG (sid ++ '_' :: (d1 ++ '-' :: d2)) =
      some (sid, digitsToNat d1, digitsToNat d2) := by
  set tail := d1 ++ '-' :: d2 with htail
  have htailmem : ∀ c ∈ tail, c ≠ '_' := by
    intro c hc
    rw [htail] at hc
    rcases List.mem_append.mp hc with hc1 | hc2
    · exact isDigit_ne_underscore (hd1 c hc1)
    · rcases List.mem_cons.mp hc2 with rfl | hc3
      · decide
      · exact isDigit_ne_underscore (hd2 c hc3)
  set L := sid ++ '_' :: tail with hL
  have hrun : L.takeWhile (fun c => !c.isWhitespace) = L := by
    apply takeWhile_all
    intro c hc
    rw [hL] at hc
    rcases List.mem_append.mp hc with hc1 | hc2
    · simp [hws c hc1]
    · rcases List.mem_cons.mp hc2 with rfl | hc3
      · decide
      · rw [htail] at hc3
        rcases List.mem_append.mp hc3 with hc4 | hc5
        · simp [isDigit_not_ws (hd1 c hc4)]
        · rcases List.mem_cons.mp hc5 with rfl | hc6
          · decide
          · simp [isDigit_not_ws (hd2 c hc6)]
  have hLlen : L.length = sid.length + tail.length + 1 := by
    rw [hL]; simp; omega
  have hunder : L[sid.length]? = some '_' := by
    rw [hL, List.getElem?_append_right (Nat.le_refl _)]
    simp
  have hnotunder : ∀ k, sid.length < k → k ≤ L.length - 1 → L[k]? ≠ some '_' := by
    intro k hk1 hk2 hk
    have hk3 : sid.length ≤ k := Nat.le_of_lt hk1
    rw [hL, List.getElem?_append_right hk3] at hk
    have hk4 : 1 ≤ k - sid.length := by omega
    obtain ⟨m, hm⟩ : ∃ m, k - sid.length = m + 1 := ⟨k - sid.length - 1, by omega⟩
    rw [hm] at hk
    simp only [List.getElem?_cons_succ] at hk
    exact htailmem '_' (List.getElem?_mem hk) rfl
  have hmf : matchFrom L = some (sid, digitsToNat d1, digitsToNat d2) := by
    unfold matchFrom
    rw [hrun]
    have hple : sid.length ≤ L.length - 1 := by
      rw [hLlen]
      have : 1 ≤ tail.length := by
        rw [htail]; simp; omega
      omega
    rw [tryJ_skip L (L.length - 1) sid.length hple hnotunder]
    have htake : L.take sid.length = sid := by
      rw [hL]
      exact List.take_left sid _
    have hdrop : L.drop (sid.length + 1) = tail := by
      rw [hL]
      have hassoc : sid ++ '_' :: tail = (sid ++ ['_']) ++ tail := by simp
      rw [hassoc]
      rw [List.drop_left' (by simp)]
    have hm2 : matchNum2 (L.drop (sid.length + 1)) =
        some (digitsToNat d1, digitsToNat d2) := by
      rw [hdrop, htail]
      exact matchNum2_spec d1 d2 h1 hd1 h2 hd2
    have hhit := tryJ_hit L sid.length
      (by have := List.length_pos.mpr hsid; omega) hunder _ _ hm2
    rw [htake] at hhit
    exact hhit
  obtain ⟨c, sid2, rfl⟩ := List.exists_cons_of_ne_nil hsid
  rw [hL] at hmf
  rw [hL]
  rw [List.cons_append] at hmf
  rw [List.cons_append, searchLTG_cons_eq, hmf]

/-- C7: for every subsequence id of the form `<seqid>_<start>-<end>`
(seqid nonempty and whitespace-free, start/end nonempty digit strings),
`local_to_global` returns `(seqid, start + localcoord)`; for an id with
no underscore the match assertion fails fatally (`none`). -/
theorem local_to_global_spec :
    (∀ (lc : Int) (sid d1 d2 : List Char),
      sid ≠ [] → (∀ c ∈ sid, c.isWhitespace = false) →
      d1 ≠ [] → (∀ c ∈ d1, c.isDigit = true) →
      d2 ≠ [] → (∀ c ∈ d2, c.isDigit = true) →
      local_to_global lc (String.mk (sid ++ '_' :: (d1 ++ '-' :: d2))) =
        some (String.mk sid, (digitsToNat d1 : Int) + lc)) ∧
    (∀ (lc : Int) (s : String), '_' ∉ s.data → local_to_global lc s = none) := by
  constructor
  · intro lc sid d1 d2 hsid hws h1 hd1 h2 hd2
    unfold local_to_global nameParse
    rw [show (String.mk (sid ++ '_' :: (d1 ++ '-' :: d2))).data =
      sid ++ '_' :: (d1 ++ '-' :: d2) from rfl]
    rw [searchLTG_wellformed sid d1 d2 hsid hws h1 hd1 h2 hd2]
    rfl
  · intro lc s hs
    unfold local_to_global nameParse
    rw [searchLTG_none s.data hs]
    rfl

/-- Witness for C7 at the spec's scenario inputs. -/
theorem local_to_global_spec_witness :
    local_to_global 50 "chr1_1000-2000" = some ("chr1", 1050) ∧
    local_to_global 50 "chr1" = none := by
  constructor
  · have h := local_to_global_spec.1 50 "chr1".data "1000".data "2000".data
      (by decide) (by decide) (by decide) (by decide) (by decide) (by decide)
    have e : ("chr1_1000-2000" : String) =
        String.mk ("chr1".data ++ '_' :: ("1000".data ++ '-' :: "2000".data)) := by
      decide
    rw [e]
    exact h.trans (by decide)
  · exact local_to_global_spec.2 50 "chr1" (by decide)

theorem mapM_option_eq_map {α β : Type} (f : α → Option β) (g : α → β)
    (l : List α) (h : ∀ a ∈ l, f a = some (g a)) :
    l.mapM f = some (l.map g) := by
  induction l with
  | nil => rfl
  | cons a t ih =>
      rw [List.mapM_cons, h a (List.mem_cons_self a t),
        ih (fun x hx => h x (List.mem_cons_of_mem a hx))]
      rfl

/-- C2: when the compared windows differ somewhere, `call_snv` emits
one SNV per differing index `i`: `VW` is the query-window slice
`[max(i-k+1,0), min(i+k,length))`, `RW` the same slice of the target
window, refr/alt the differing characters uppercased, `IK` the
stringified supporting-k-mer count, and the position maps `i` (plus
`offset` when the target is not short) through the coordinate mapper
on the target's name. -/
theorem call_snv_diffs (target query : SeqRecord) (offset : Int)
    (length ksize : Nat) (sid : String) (g0 : Nat)
    (hname : nameParse target.name = some (sid, g0))
    (ds : List (Nat × Char × Char))
    (hds : diffList (snvTargetWindow target offset length)
      (snvQueryWindow query offset length) length = some ds)
    (hne : ds ≠ []) :
    call_snv target query offset length ksize = some (ds.map (fun d =>
      ⟨VarKind.snv, sid,
        (g0 : Int) + ((d.1 : Int) + (if offset < 0 then 0 else offset)),
        String.mk [d.2.1.toUpper], String.mk [d.2.2.toUpper],
        [("VW", String.mk (pyslice (snvQueryWindow query offset length)
            (max ((d.1 : Int) - ksize + 1) 0) (min ((d.1 : Int) + ksize) length))),
         ("RW", String.mk (pyslice (snvTargetWindow target offset length)
            (max ((d.1 : Int) - ksize + 1) 0) (min ((d.1 : Int) + ksize) length))),
         ("IK", toString query.ikmers.length)]⟩)) := by
  unfold call_snv
  dsimp only
  rw [hds]
  cases ds with
  | nil => exact absurd rfl hne
  | cons d0 dt =>
      show (d0 :: dt).mapM _ = _
      apply mapM_option_eq_map
      intro d _
      unfold local_to_global
      rw [hname]
      simp only [Option.map_some']
      congr 2
      split_ifs <;> omega

/-- Witness for C2: the spec's SNV scenario (`3D10M2D`-extracted
parameters, one mismatch, alleles uppercased, window of all
overlapping 3-mers). -/
theorem call_snv_diffs_witness :
    call_snv ⟨"seq1_100-200", "AAAGCATGCATAA".data, []⟩
      ⟨"contig1", "GCATCCATAA".data, ["a", "b"]⟩ 3 10 3 =
      some [⟨VarKind.snv, "seq1", 107, "G", "C",
        [("VW", "ATCCA"), ("RW", "ATGCA"), ("IK", "2")]⟩] := by
  have h := call_snv_diffs ⟨"seq1_100-200", "AAAGCATGCATAA".data, []⟩
    ⟨"contig1", "GCATCCATAA".data, ["a", "b"]⟩ 3 10 3 "seq1" 100 (by decide)
    [(4, 'G', 'C')] (by decide) (by decide)
  exact h.trans (by decide)

/-- C6: when the two compared windows are identical (and full length),
`call_snv` returns exactly one no-call: `NC='perfectmatch'`, `QN` the
query name, `QS` the compared query window, positioned at the global
coordinate of the compared region's start. -/
theorem call_snv_perfectmatch (target query : SeqRecord) (offset : Int)
    (length ksize : Nat) (sid : String) (g0 : Nat)
    (hname : nameParse target.name = some (sid, g0))
    (hlen : (snvTargetWindow target offset length).length = length)
    (hqlen : (snvQueryWindow query offset length).length = length)
    (heq : snvTargetWindow target offset length =
      snvQueryWindow query offset length) :
    call_snv target query offset length ksize = some
      [⟨VarKind.plain, sid, (g0 : Int) + (if offset < 0 then 0 else offset),
        ".", ".",
        [("NC", "perfectmatch"), ("QN", query.name),
         ("QS", String.mk (snvQueryWindow query offset length))]⟩] := by
  unfold call_snv
  dsimp only
  have hdiff : diffList (snvTargetWindow target offset length)
      (snvQueryWindow query offset length) length = some [] := by
    unfold diffList
    rw [if_pos ⟨le_of_eq hlen.symm, le_of_eq hqlen.symm⟩]
    congr 1
    rw [List.filterMap_eq_nil_iff]
    intro i _
    rw [← heq]
    cases h : (snvTargetWindow target offset length)[i]? <;> simp [h]
  rw [hdiff]
  unfold local_to_global
  rw [hname]
  rfl

/-- Witness for C6: identical 4-base windows produce the single
perfect-match no-call. -/
theorem call_snv_perfectmatch_witness :
    call_snv ⟨"seq1_10-20", "ACGTACGT".data, []⟩ ⟨"q1", "ACGT".data, []⟩ 0 4 31 =
      some [⟨VarKind.plain, "seq1", 10, ".", ".",
        [("NC", "perfectmatch"), ("QN", "q1"), ("QS", "ACGT")]⟩] := by
  have h := call_snv_perfectmatch ⟨"seq1_10-20", "ACGTACGT".data, []⟩
    ⟨"q1", "ACGT".data, []⟩ 0 4 31 "seq1" 10 (by decide) (by decide) (by decide)
    (by decide)
  exact h.trans (by decide)

theorem interpretCigar_of_not_shapeOk :
    ∀ (o : Option (List (Nat × Char))), shapeOk o = false →
      interpretCigar o = CigarCall.inscrutable
  | none, _ => rfl
  | some [], _ => rfl
  | some [(_, _)], _ => rfl
  | some [(_, _), (_, _)], _ => rfl
  | some [(n1, x), (n2, m), (n3, y)], h => by
      simp only [shapeOk] at h
      simp [interpretCigar, h]
  | some [(n1, x), (n2, m1), (n3, y), (n4, m2)], h => by
      simp only [shapeOk] at h
      simp [interpretCigar, h]
  | some [(n1, x), (n2, m1), (n3, z), (n4, m2), (n5, y)], h => by
      simp only [shapeOk] at h
      simp [interpretCigar, h]
  | some [(n1, x), (n2, m1), (n3, z), (n4, m2), (n5, y), (n6, m3)], h => by
      simp only [shapeOk] at h
      simp [interpretCigar, h]
  | some ((_, _) :: (_, _) :: (_, _) :: (_, _) :: (_, _) :: (_, _) :: _ :: _), _ => rfl

/-- C5: an operation string matching none of the four recognized
shapes yields exactly one no-call with `NC='inscrutablecigar'`, `CG`
the raw operation string, `QN` the query name, `QS` the full query
sequence, at the global coordinate of local offset 0 on the target's
name. -/
theorem make_call_inscrutable (target query : SeqRecord) (cigar : String)
    (ksize : Nat) (sid : String) (g0 : Nat)
    (hname : nameParse target.name = some (sid, g0))
    (hint : alignment_interpretable cigar = false) :
    make_call target query cigar ksize = some
      [⟨VarKind.plain, sid, (g0 : Int), ".", ".",
        [("NC", "inscrutablecigar"), ("QN", query.name),
         ("QS", String.mk query.sequence), ("CG", cigar)]⟩] := by
  unfold make_call
  rw [interpretCigar_of_not_shapeOk _ hint]
  unfold local_to_global
  rw [hname]
  simp

/-- Witness for C5: the spec's `"abc"` scenario. -/
theorem make_call_inscrutable_witness :
    make_call ⟨"seq1_10-20", "ACGTACGT".data, []⟩ ⟨"q1", "ACGT".data, []⟩
      "abc" 31 = some
      [⟨VarKind.plain, "seq1", 10, ".", ".",
        [("NC", "inscrutablecigar"), ("QN", "q1"), ("QS", "ACGT"),
         ("CG", "abc")]⟩] := by
  have h := make_call_inscrutable ⟨"seq1_10-20", "ACGTACGT".data, []⟩
    ⟨"q1", "ACGT".data, []⟩ "abc" 31 "seq1" 10 (by decide) (by decide)
  exact h.trans (by decide)

/-- C4: for operation strings of the plain SNV shape
`<n1><D|I><n2>M<n3><D|I>` or the plain indel shape
`<n1><D|I><n2>M<n3><D|I><n4>M<n5><D|I>`, appending a trailing `<n>M`
with `n ≤ 5` leaves the result of `make_call` unchanged. -/
theorem make_call_trailing_match_irrelevant :
    (∀ (t q : SeqRecord) (ksize : Nat) (c c2 : String) (n1 n2 n3 n4 : Nat)
      (x y : Char),
      parseCigar c.data = some [(n1, x), (n2, 'M'), (n3, y)] →
      parseCigar c2.data = some [(n1, x), (n2, 'M'), (n3, y), (n4, 'M')] →
      isDI x = true → isDI y = true → n4 ≤ 5 →
      make_call t q c ksize = make_call t q c2 ksize) ∧
    (∀ (t q : SeqRecord) (ksize : Nat) (c c2 : String)
      (n1 n2 n3 n4 n5 n6 : Nat) (x z y : Char),
      parseCigar c.data = some [(n1, x), (n2, 'M'), (n3, z), (n4, 'M'), (n5, y)] →
      parseCigar c2.data =
        some [(n1, x), (n2, 'M'), (n3, z), (n4, 'M'), (n5, y), (n6, 'M')] →
      isDI x = true → isDI z = true → isDI y = true → n6 ≤ 5 →
      make_call t q c ksize = make_call t q c2 ksize) := by
  constructor
  · intro t q ksize c c2 n1 n2 n3 n4 x y hc hc2 hx hy hn
    unfold make_call
    rw [hc, hc2]
    simp [interpretCigar, hx, hy, hn]
  · intro t q ksize c c2 n1 n2 n3 n4 n5 n6 x z y hc hc2 hx hz hy hn
    unfold make_call
    rw [hc, hc2]
    simp [interpretCigar, hx, hz, hy, hn]

/-- Witness for C4: concrete SNV and indel operation strings with and
without a `≤ 5` trailing match. -/
theorem make_call_trailing_match_irrelevant_witness :
    (make_call ⟨"seq1_100-200", "AAAGCATGCATAA".data, []⟩
      ⟨"contig1", "GCATCCATAA".data, []⟩ "3D10M2D" 3 =
     make_call ⟨"seq1_100-200", "AAAGCATGCATAA".data, []⟩
      ⟨"contig1", "GCATCCATAA".data, []⟩ "3D10M2D4M" 3) ∧
    (make_call ⟨"chr1_10-20", "ACGTACGTACGT".data, []⟩
      ⟨"q", "ACGTACGT".data, []⟩ "2D3M2D4M3D" 2 =
     make_call ⟨"chr1_10-20", "ACGTACGTACGT".data, []⟩
      ⟨"q", "ACGTACGT".data, []⟩ "2D3M2D4M3D2M" 2) := by
  constructor
  · exact make_call_trailing_match_irrelevant.1 _ _ 3 "3D10M2D" "3D10M2D4M"
      3 10 2 4 'D' 'D' (by decide) (by decide) (by decide) (by decide)
      (by decide)
  · exact make_call_trailing_match_irrelevant.2 _ _ 2 "2D3M2D4M3D"
      "2D3M2D4M3D2M" 2 3 2 4 3 2 'D' 'D' 'D' (by decide) (by decide)
      (by decide) (by decide) (by decide) (by decide)

/-- C8: `call_deletion` and `call_insertion`, when they return, emit
exactly one Indel record positioned at the coordinate-mapped
`leftmatch` (plus `offset` when the target is not short) minus one,
with `IK` the stringified supporting-k-mer count of the query. -/
theorem indel_call_position_ik (target query : SeqRecord) (offset : Int)
    (ksize leftmatch indellength : Nat) (sid : String) (g0 : Nat)
    (hname : nameParse target.name = some (sid, g0)) :
    (∀ vs, call_deletion target query offset ksize leftmatch indellength =
        some vs →
      ∃ v, vs = [v] ∧ v.kind = VarKind.indel ∧
        v.pos = (g0 : Int) + ((leftmatch : Int) +
          (if offset < 0 then 0 else offset)) - 1 ∧
        v.info.lookup "IK" = some (toString query.ikmers.length)) ∧
    (∀ vs, call_insertion target query offset ksize leftmatch indellength =
        some vs →
      ∃ v, vs = [v] ∧ v.kind = VarKind.indel ∧
        v.pos = (g0 : Int) + ((leftmatch : Int) +
          (if offset < 0 then 0 else offset)) - 1 ∧
        v.info.lookup "IK" = some (toString query.ikmers.length)) := by
  constructor
  · intro vs hvs
    unfold call_deletion at hvs
    dsimp only at hvs
    split at hvs
    · exact absurd hvs (by simp)
    · unfold local_to_global at hvs
      rw [hname] at hvs
      simp only [Option.map_some'] at hvs
      injection hvs with hvs2
      subst hvs2
      refine ⟨_, rfl, rfl, ?_, ?_⟩
      · show (g0 : Int) + _ - 1 = _
        split_ifs <;> omega
      · simp [List.lookup]
  · intro vs hvs
    unfold call_insertion at hvs
    dsimp only at hvs
    split at hvs
    · exact absurd hvs (by simp)
    · split at hvs
      · unfold local_to_global at hvs
        rw [hname] at hvs
        simp only [Option.map_some'] at hvs
        injection hvs with hvs2
        subst hvs2
        refine ⟨_, rfl, rfl, ?_, ?_⟩
        · show (g0 : Int) + _ - 1 = _
          split_ifs <;> omega
        · simp [List.lookup]
      · exact absurd hvs (by simp)

/-- Witness for C8 at concrete deletion and insertion calls. -/
theorem indel_call_position_ik_witness :
    (∃ v, [(⟨VarKind.indel, "chr1", 12, "GTA", "G",
        [("VW", "GT"), ("RW", "GTAC"), ("IK", "0")]⟩ : Variant)] = [v] ∧
      v.kind = VarKind.indel ∧
      v.pos = (10 : Int) + ((3 : Int) + (if (0 : Int) < 0 then 0 else 0)) - 1 ∧
      v.info.lookup "IK" = some (toString ([] : List String).length)) ∧
    (∃ v, [(⟨VarKind.indel, "chr1", 12, "G", "GTA",
        [("VW", "GTAC"), ("RW", "GT"), ("IK", "0")]⟩ : Variant)] = [v] ∧
      v.kind = VarKind.indel ∧
      v.pos = (10 : Int) + ((3 : Int) + (if (0 : Int) < 0 then 0 else 0)) - 1 ∧
      v.info.lookup "IK" = some (toString ([] : List String).length)) := by
  constructor
  · exact (indel_call_position_ik ⟨"chr1_10-20", "ACGTACGTACGT".data, []⟩
      ⟨"q", "ACGTACGT".data, []⟩ 0 2 3 2 "chr1" 10 (by decide)).1 _ (by decide)
  · exact (indel_call_position_ik ⟨"chr1_10-20", "ACGTACGTACGT".data, []⟩
      ⟨"q", "ACGTACGT".data, []⟩ 0 2 3 2 "chr1" 10 (by decide)).2 _ (by decide)

/-- C9 counterexample: a deletion call returns normally although the
indel-spanning (reference) allele has length 3 rather than
`indellength + 1 = 6`, with the query (3 bases) not longer than the
target (4 bases) — the length check is skipped for all deletion calls,
not just the query-longer-than-target case. -/
theorem call_deletion_unchecked_counterexample :
    call_deletion ⟨"chr1_10-20", "ACGT".data, []⟩ ⟨"q", "ACG".data, []⟩
      0 2 2 5 =
      some [⟨VarKind.indel, "chr1", 11, "CGT", "C",
        [("VW", "CG"), ("RW", "CGT"), ("IK", "0")]⟩] ∧
    ("CGT" : String).length ≠ 5 + 1 ∧
    "ACG".data.length ≤ "ACGT".data.length := by
  refine ⟨by decide, by decide, by decide⟩

/-- C9 (amended): the `indellength + 1` length invariant is enforced
exactly on the alternate allele of `call_insertion` — whenever an
insertion call returns normally its alternate allele has that length,
violations aborting fatally — while `call_deletion` performs no such
check (its assertion is commented out). -/
theorem call_insertion_alt_length (target query : SeqRecord) (offset : Int)
    (ksize leftmatch indellength : Nat) (vs : List Variant)
    (h : call_insertion target query offset ksize leftmatch indellength =
      some vs) :
    ∃ v, vs = [v] ∧ v.alt.length = indellength + 1 := by
  unfold call_insertion at h
  dsimp only at h
  split at h
  · exact absurd h (by simp)
  · next refr alt refrwindow altwindow =>
      split at h
      · next hlen =>
          cases hl : local_to_global
              (if offset < 0 then (leftmatch : Int)
               else (leftmatch : Int) + offset) target.name with
          | none => rw [hl] at h; exact absurd h (by simp)
          | some sg =>
              rw [hl] at h
              simp only [Option.map_some'] at h
              injection h with h2
              subst h2
              exact ⟨_, rfl, hlen⟩
      · exact absurd h (by simp)

/-- Witness for the amended C9 at a concrete insertion call. -/
theorem call_insertion_alt_length_witness :
    ∃ v, [(⟨VarKind.indel, "chr1", 12, "G", "GTA",
        [("VW", "GTAC"), ("RW", "GT"), ("IK", "0")]⟩ : Variant)] = [v] ∧
      v.alt.length = 2 + 1 :=
  call_insertion_alt_length ⟨"chr1_10-20", "ACGTACGTACGT".data, []⟩
    ⟨"q", "ACGTACGT".data, []⟩ 0 2 3 2 _ (by decide)

theorem filterMap_if_eq_map_filter {α : Type} (P : α → Prop) [DecidablePred P]
    (g : α → Int) (l : List α) :
    l.filterMap (fun a => if P a then some (g a) else none) =
      (l.filter (fun a => decide (P a))).map g := by
  induction l with
  | nil => rfl
  | cons a t ih =>
      by_cases h : P a <;>
        simp [List.filterMap_cons, List.filter_cons, h, ih]

theorem cast_list_sum_int (l : List Int) :
    ((l.sum : Int) : ℚ) = (l.map (fun i : Int => (i : ℚ))).sum :=
  Int.cast_list_sum l

/-- C10: `mate_distance` returns the arithmetic mean of `|p - pos|`
over the mate positions on the candidate's sequence when at least one
exists, and fails by zero division (`none`) when none does; hence the
mate-distance sort key in `call` is only defined for candidates whose
sequence is hit by some mate alignment. -/
theorem mate_distance_spec (mate_positions : List (String × Int))
    (gdna : String × Int) :
    (mate_positions.filter (fun sp => decide (sp.1 = gdna.1)) = [] →
      mate_distance mate_positions gdna = none) ∧
    (mate_positions.filter (fun sp => decide (sp.1 = gdna.1)) ≠ [] →
      mate_distance mate_positions gdna = some
        (((mate_positions.filter (fun sp => decide (sp.1 = gdna.1))).map
            (fun sp => ((|sp.2 - gdna.2| : Int) : ℚ))).sum /
          ((mate_positions.filter
            (fun sp => decide (sp.1 = gdna.1))).length : ℚ))) := by
  have hfm : mate_positions.filterMap (fun sp =>
      if sp.1 = gdna.1 then some |sp.2 - gdna.2| else none) =
      (mate_positions.filter (fun sp => decide (sp.1 = gdna.1))).map
        (fun sp => |sp.2 - gdna.2|) :=
    filterMap_if_eq_map_filter _ _ _
  constructor
  · intro hnil
    unfold mate_distance
    rw [hfm, hnil]
    rfl
  · intro hne
    unfold mate_distance
    rw [hfm]
    rw [if_neg (by simpa using hne)]
    rw [cast_list_sum_int, List.map_map, List.length_map]
    congr 1

/-- Witness for C10: mean distance 15/2 on a matching sequence, zero
division on a sequence no mate hits. -/
theorem mate_distance_spec_witness :
    mate_distance [("chr1", 100), ("chr1", 95)] ("chr1", 90) =
      some ((15 : ℚ) / 2) ∧
    mate_distance [("chr2", 100)] ("chr1", 90) = none := by
  constructor
  · have h := (mate_distance_spec [("chr1", 100), ("chr1", 95)]
      ("chr1", 90)).2 (by decide)
    rw [h]
    norm_num
  · exact (mate_distance_spec [("chr2", 100)] ("chr1", 90)).1 (by decide)

theorem lookup_map_replace (info : List (String × String)) (k x : String)
    (h : (info.lookup k).isSome) :
    (info.map (fun p => if p.1 = k then (k, x) else p)).lookup k = some x := by
  induction info with
  | nil => simp at h
  | cons p l ih =>
      by_cases hp : p.1 = k
      · rw [List.map_cons, if_pos hp]
        simp [List.lookup]
      · have hk : (k == p.1) = false := by
          simp only [beq_eq_false_iff_ne, ne_eq]
          exact fun hkp => hp hkp.symm
        rw [List.map_cons, if_neg hp]
        simp only [List.lookup, hk] at h ⊢
        exact ih h

theorem lookup_setInfo (info : List (String × String)) (k x : String) :
    (setInfo info k x).lookup k = some x := by
  unfold setInfo
  split
  · next h => exact lookup_map_replace info k x h
  · next h =>
      have hn : info.lookup k = none := Option.not_isSome_iff_eq_none.mp h
      rw [List.lookup_append, hn]
      simp [List.lookup]

theorem reportLoop_flagged (E : ExternalFns) (ksize : Nat) (qname : String)
    (ikmers : List String) :
    ∀ (aligns : List AlignCand) (qseq : List Char)
      (out : List Variant × List Char),
      reportLoop E ksize true qname ikmers aligns qseq false = some out →
      ∀ v ∈ out.1, v.info.lookup "NC" = some "matefail" := by
  intro aligns
  induction aligns with
  | nil =>
      intro qseq out h v hv
      injection h with h2
      rw [← h2] at hv
      exact absurd hv (by simp)
  | cons a rest ih =>
      intro qseq out h v hv
      unfold reportLoop at h
      dsimp only at h
      generalize (if a.strand = -1 then E.revcom qseq else qseq) = qseq1 at h
      generalize (if a.strand = -1 then E.revcom qseq1 else qseq1) = qseq2 at h
      split at h
      · exact absurd h (by simp)
      · next vs hmc =>
          split at h
          · exact absurd h (by simp)
          · next r hrec =>
              injection h with h2
              rw [← h2] at hv
              rcases List.mem_append.mp hv with h1 | h1
              · obtain ⟨w, _, rfl⟩ := List.mem_map.mp h1
                show (setInfo w.info "NC" "matefail").lookup "NC" =
                  some "matefail"
                exact lookup_setInfo w.info "NC" "matefail"
              · exact ih qseq2 r hrec v h1

/-- C1 (amended): in the reporting loop of `call`, when the cached
mate-position list is truthy (mate files were supplied and produced at
least one placement), the first tied candidate's records are yielded
exactly as `make_call` produced them and every record of every
additional tied candidate carries `info['NC'] = 'matefail'`; with no
mate-reads file the flag is never applied (see the counterexample). -/
theorem call_matefail_flagging (E : ExternalFns) (ksize : Nat)
    (qname : String) (ikmers : List String) (a : AlignCand)
    (rest : List AlignCand) (qseq : List Char)
    (out : List Variant × List Char)
    (h : reportLoop E ksize true qname ikmers (a :: rest) qseq true =
      some out) :
    ∃ vs1 vs2,
      make_call a.target
        ⟨qname, if a.strand = -1 then E.revcom qseq else qseq, ikmers⟩
        a.cigar ksize = some vs1 ∧
      out.1 = vs1 ++ vs2 ∧
      ∀ v ∈ vs2, v.info.lookup "NC" = some "matefail" := by
  unfold reportLoop at h
  dsimp only at h
  generalize hq1 : (if a.strand = -1 then E.revcom qseq else qseq) = qseq1 at h ⊢
  generalize (if a.strand = -1 then E.revcom qseq1 else qseq1) = qseq2 at h
  split at h
  · exact absurd h (by simp)
  · next vs hmc =>
      split at h
      · exact absurd h (by simp)
      · next r hrec =>
          injection h with h2
          refine ⟨vs, r.1, hmc, ?_, ?_⟩
          · rw [← h2]
            show (vs.map (fun v => v)) ++ r.1 = vs ++ r.1
            rw [List.map_id']
          · intro v hv
            exact reportLoop_flagged E ksize qname ikmers rest qseq2 r hrec v hv

/-- Witness for the amended C1: two tied candidates, truthy mate
cache; the first candidate's SNV is unmodified, the second's carries
`NC=matefail`. -/
theorem call_matefail_flagging_witness :
    ∃ vs1 vs2,
      make_call (AlignCand.mk wT1 "3D4M3D" 10 1).target
        ⟨"contig1",
          if (AlignCand.mk wT1 "3D4M3D" 10 1).strand = -1 then
            wE.revcom "CGTA".data
          else "CGTA".data, ["k1"]⟩
        (AlignCand.mk wT1 "3D4M3D" 10 1).cigar 2 = some vs1 ∧
      ((⟨[⟨VarKind.snv, "chr1", 104, "A", "G",
          [("VW", "CGT"), ("RW", "CAT"), ("IK", "1")]⟩,
        ⟨VarKind.snv, "chr2", 104, "T", "G",
          [("VW", "CGT"), ("RW", "CTT"), ("IK", "1"), ("NC", "matefail")]⟩],
        "CGTA".data⟩ : List Variant × List Char)).1 = vs1 ++ vs2 ∧
      ∀ v ∈ vs2, v.info.lookup "NC" = some "matefail" :=
  call_matefail_flagging wE 2 "contig1" ["k1"] (AlignCand.mk wT1 "3D4M3D" 10 1)
    [AlignCand.mk wT2 "3D4M3D" 10 1] "CGTA".data
    ⟨[⟨VarKind.snv, "chr1", 104, "A", "G",
        [("VW", "CGT"), ("RW", "CAT"), ("IK", "1")]⟩,
      ⟨VarKind.snv, "chr2", 104, "T", "G",
        [("VW", "CGT"), ("RW", "CTT"), ("IK", "1"), ("NC", "matefail")]⟩],
      "CGTA".data⟩ (by decide)

/-- C1 counterexample: with NO mate-reads file, a query with two tied
interpretable candidates yields both candidates' variant records and
neither — in particular not the second one — carries
`info['NC'] = 'matefail'`; the flag is not applied "regardless of
whether a mate-reads file was supplied". -/
theorem call_matefail_counterexample :
    (call wE [wT1, wT2] [wQ] 1 2 5 0 2 none none).map
      (fun vs => vs.map (fun v => v.info.lookup "NC")) =
      some [none, none] := by
  decide
